/-
Verification of the SIM800L serial-driver core (SIM800L.cpp) against its
natural-language specification.

The driver's pure logic is shallowly embedded over `List Char`:
  * the scratch buffer written by `readResponse` is the list of bytes
    accumulated so far (the C buffer is zero-filled before every read, so
    reads past the written region yield the NUL character, modelled by
    `chAt`'s default);
  * the byte-stream transport is the list of bytes that arrive before the
    caller's timeout elapses — exhausting the list models timeout expiry;
  * for whole-operation models (`doGet`, `doPost`, `setPowerMode`) the
    device is a script, one `List Char` segment per read pass of the driver
    (each `sendCommand` drains stale input first, which the segment-per-read
    model reflects by discarding a segment's unconsumed remainder);
  * machine integers keep their C widths where overflow is reachable:
    `uint16_t` counters and `dataSize` are `Nat` reduced `% 65536`,
    the `uint8_t` CRLF counter `% 256`, `int` char arithmetic is `Int`
    with `Int.emod` for conversions back to unsigned.
-/
import Mathlib

set_option linter.unusedVariables false

/-- The NUL character, the C string terminator and the zero-fill value of
the driver's buffers. -/
def NULc : Char := Char.ofNat 0

/-- Inner loop of `SIM800L::strIndex` (SIM800L.cpp lines 631-654).  `find` is
`findStr`; the first list argument is the part of `str` not yet scanned,
`i` the current scan position, `fI` the C local `firstIndex`, `sM` the C
local `sizeMatch`.  On a mismatch the loop resets the partial match and
moves on WITHOUT re-examining the mismatching character, exactly as the C
loop does. -/
def strIndexAux (find : List Char) : List Char → Nat → Int → Nat → Int
  | [], _, fI, sM =>
      if find.length ≤ sM then fI else -1
  | c :: rest, i, fI, sM =>
      if find.length ≤ sM then fI
      else if c = find.getD sM NULc then
        strIndexAux find rest (i + 1) (if fI < 0 then (i : Int) else fI) (sM + 1)
      else
        strIndexAux find rest (i + 1) (-1) 0

/-- Model of `SIM800L::strIndex(str, findStr, startIdx)`: scan `str` from `startIdx`
for `findStr`, returning the match index or -1. -/
def strIndex (str find : List Char) (startIdx : Nat) : Int :=
  strIndexAux find (str.drop startIdx) startIdx (-1) 0

/-- Indexing helper: `(str.drop i)[k]? = str[i + k]?`. -/
theorem drop_getElem? {α : Type} : ∀ (i : Nat) (str : List α) (k : Nat),
    (str.drop i)[k]? = str[i + k]? := by
  intro i
  induction i with
  | zero => intro str k; simp
  | succ i ih =>
    intro str k
    cases str with
    | nil => simp
    | cons c t =>
      have : i + 1 + k = (i + k) + 1 := by omega
      simp [this, ih t k]

/-- Soundness invariant of the `strIndex` scan: whenever the scan returns a
non-negative index, the needle occurs contiguously there. -/
theorem strIndexAux_sound (find str : List Char) (s : Nat) :
    ∀ (rem : List Char) (i : Nat) (fI : Int) (sM : Nat),
      rem = str.drop i → s ≤ i → sM ≤ find.length →
      (fI = -1 ∧ sM = 0 ∨
        0 ≤ fI ∧ s ≤ fI.toNat ∧ fI.toNat + sM = i ∧ fI.toNat + sM ≤ str.length ∧
          (str.drop fI.toNat).take sM = find.take sM) →
      ∀ r : Int, strIndexAux find rem i fI sM = r → 0 ≤ r →
        s ≤ r.toNat ∧ r.toNat + find.length ≤ str.length ∧
          (str.drop r.toNat).take find.length = find := by
  intro rem
  induction rem with
  | nil =>
    intro i fI sM hrem hs hsM hinv r hr hr0
    simp only [strIndexAux] at hr
    split at hr
    · rcases hinv with ⟨h1, _⟩ | ⟨h1, h2, h3, h4, h5⟩
      · subst hr; omega
      · subst hr
        rename_i hlen
        have hsMeq : sM = find.length := le_antisymm hsM hlen
        rw [hsMeq] at h4 h5
        rw [List.take_length] at h5
        exact ⟨h2, by omega, h5⟩
    · subst hr; omega
  | cons c rest ih =>
    intro i fI sM hrem hs hsM hinv r hr hr0
    have hi : i < str.length := by
      by_contra hle
      have : str.drop i = [] := List.drop_eq_nil_of_le (by omega)
      rw [this] at hrem
      exact List.noConfusion hrem
    have hdropsucc : rest = str.drop (i + 1) := by
      have h1 : List.drop 1 (str.drop i) = str.drop (i + 1) := by
        rw [List.drop_drop]
      rw [← hrem] at h1
      simpa using h1
    have hcelem : str[i]? = some c := by
      have h0 : (str.drop i)[0]? = str[i + 0]? := drop_getElem? i str 0
      rw [← hrem] at h0
      simpa using h0.symm
    simp only [strIndexAux] at hr
    split at hr
    · -- break at loop head: find.length ≤ sM
      rcases hinv with ⟨h1, _⟩ | ⟨h1, h2, h3, h4, h5⟩
      · subst hr; omega
      · subst hr
        rename_i hlen
        have hsMeq : sM = find.length := le_antisymm hsM hlen
        rw [hsMeq] at h4 h5
        rw [List.take_length] at h5
        exact ⟨h2, by omega, h5⟩
    · split at hr
      · -- match: str[i] = find[sM]
        rename_i hnlen hmatch
        have hsMlt : sM < find.length := by omega
        have hfind : find[sM]? = some c := by
          rw [List.getD_eq_getElem?_getD] at hmatch
          rcases h : find[sM]? with _ | fc
          · rw [List.getElem?_eq_none_iff] at h; omega
          · rw [h] at hmatch; simp at hmatch; rw [hmatch]
        refine ih (i + 1) (if fI < 0 then (i : Int) else fI) (sM + 1)
          hdropsucc (by omega) (by omega) ?_ r hr hr0
        right
        rcases hinv with ⟨h1, h2⟩ | ⟨h1, h2, h3, h4, h5⟩
        · -- fresh match start at i
          subst h1; subst h2
          simp only [if_pos (by norm_num : (-1 : Int) < 0)]
          refine ⟨by positivity, by simpa using hs, by simp, by simp; omega, ?_⟩
          have h6 : (str.drop i).take 1 = find.take 1 := by
            rw [hrem.symm]
            cases hfind' : find with
            | nil => rw [hfind'] at hsMlt; simp at hsMlt
            | cons f0 ftail =>
              rw [hfind'] at hfind
              simp at hfind
              simp [hfind]
          simpa using h6
        · -- extend existing match
          have hnneg : ¬ fI < 0 := by omega
          simp only [if_neg hnneg]
          refine ⟨h1, h2, by omega, by omega, ?_⟩
          have hdelem : (str.drop fI.toNat)[sM]? = some c := by
            rw [drop_getElem? fI.toNat str sM, h3]
            exact hcelem
          rw [List.take_succ, List.take_succ, h5, hdelem, hfind]
      · -- mismatch: reset
        rename_i hnlen hne
        exact ih (i + 1) (-1) 0 hdropsucc (by omega) (by omega)
          (Or.inl ⟨rfl, rfl⟩) r hr hr0

/-- C2 (corrected): the matcher `strIndex` is *sound* — a non-negative
result is the index of a contiguous occurrence of the needle at or after
the start offset — and the three examples of the spec hold; but it is not
complete (see the counterexample: an occurrence overlapping an abandoned
partial match is missed), so it does not always return the first
occurrence. -/
theorem strIndex_sound_and_examples :
    (∀ (str find : List Char) (s : Nat) (i : Int),
      strIndex str find s = i → 0 ≤ i →
      s ≤ i.toNat ∧ i.toNat + find.length ≤ str.length ∧
        (str.drop i.toNat).take find.length = find) ∧
    strIndex ['A','B','C','D','E','F'] ['C','D'] 0 = 2 ∧
    strIndex ['A','B','C','D','E','F'] ['Z','Z'] 0 = -1 ∧
    strIndex ['A','B','C','D','E','F'] ['C','D'] 3 = -1 := by
  refine ⟨?_, by decide, by decide, by decide⟩
  intro str find s i h h0
  exact strIndexAux_sound find str s (str.drop s) s (-1) 0 rfl le_rfl
    (Nat.zero_le _) (Or.inl ⟨rfl, rfl⟩) i h h0

/-- C2 counterexample: `strIndex "AAB" "AB" 0` returns -1 although `"AB"`
occurs (contiguously, at index 1 ≥ the start offset 0), refuting the claim
that `strIndex` always returns the index of the first occurrence. -/
theorem strIndex_misses_overlapping_occurrence :
    strIndex ['A','A','B'] ['A','B'] 0 = -1 ∧
    (List.drop 1 ['A','A','B']).take 2 = ['A','B'] :=
  ⟨rfl, rfl⟩

/-- Loop body of `SIM800L::readResponse` (SIM800L.cpp lines 787-842), one step
per byte arriving before the timeout.  Arguments after `cap` (the
`internalBufferSize`) and `w` (`crlfToWait`, a `uint8_t` value): the bytes
still to arrive, the C locals `seenCR`, `countCRLF` (uint8, hence `% 256`)
and `currentSizeResponse` (uint16, hence `% 65536`), and the bytes stored
so far.  `none` models the timeout return. -/
def rrAux (cap w : Nat) : List Char → Bool → Nat → Nat → List Char → Option (List Char)
  | [], _, _, _, _ => none
  | c :: rest, seenCR, countCRLF, size, acc =>
    if c = '\r' then
      if (size + 1) % 65536 = cap then some (acc ++ [c])
      else rrAux cap w rest true countCRLF ((size + 1) % 65536) (acc ++ [c])
    else if c = '\n' ∧ seenCR then
      if (countCRLF + 1) % 256 = w then some (acc ++ [c])
      else if (size + 1) % 65536 = cap then some (acc ++ [c])
      else rrAux cap w rest seenCR ((countCRLF + 1) % 256) ((size + 1) % 65536) (acc ++ [c])
    else
      if (size + 1) % 65536 = cap then some (acc ++ [c])
      else rrAux cap w rest false countCRLF ((size + 1) % 65536) (acc ++ [c])

/-- Model of `SIM800L::readResponse(timeout, crlfToWait)`: `input` is the byte
stream arriving before `timeout` elapses; `some buf` is a successful read
leaving `buf` in the scratch buffer, `none` the timeout failure. -/
def readResponse (input : List Char) (cap w : Nat) : Option (List Char) :=
  rrAux cap w input false 0 0 []

/-- Number of CRLF terminations the reader's detector counts on `input`
when the `seenCR` flag starts as `b`.  This is the code's detection rule:
the flag is set by CR, KEPT by a counted LF, and cleared by anything
else — so after one CR, every LF in a row is counted. -/
def crlfCount : List Char → Bool → Nat
  | [], _ => 0
  | c :: rest, seenCR =>
    if c = '\r' then crlfCount rest true
    else if c = '\n' ∧ seenCR then 1 + crlfCount rest seenCR
    else crlfCount rest false

/-- Final state of the detector's `seenCR` flag after scanning a list. -/
def crlfSeen : List Char → Bool → Bool
  | [], b => b
  | c :: rest, seenCR =>
    if c = '\r' then crlfSeen rest true
    else if c = '\n' ∧ seenCR then crlfSeen rest seenCR
    else crlfSeen rest false

/-- Number of occurrences of the two-byte sequence CR LF in a list — the
spec's reading of "CRLF sequence ... observed in the incoming bytes". -/
def crlfPairCount : List Char → Nat
  | [] => 0
  | [_] => 0
  | c1 :: c2 :: rest =>
    (if c1 = '\r' ∧ c2 = '\n' then 1 else 0) + crlfPairCount (c2 :: rest)

theorem crlfSeen_append (xs ys : List Char) (b : Bool) :
    crlfSeen (xs ++ ys) b = crlfSeen ys (crlfSeen xs b) := by
  induction xs generalizing b with
  | nil => simp [crlfSeen]
  | cons c rest ih =>
    simp only [List.cons_append, crlfSeen]
    split
    · exact ih true
    · split
      · exact ih b
      · exact ih false

theorem crlfCount_append (xs ys : List Char) (b : Bool) :
    crlfCount (xs ++ ys) b = crlfCount xs b + crlfCount ys (crlfSeen xs b) := by
  induction xs generalizing b with
  | nil => simp [crlfCount, crlfSeen]
  | cons c rest ih =>
    simp only [List.cons_append, crlfCount, crlfSeen, List.append_eq]
    split
    · exact ih true
    · split
      · rw [ih b]; omega
      · exact ih false

/-- Characterization of read-loop success in the no-wraparound regime of
the uint8/uint16 counters. -/
theorem rrAux_isSome_iff (cap w : Nat) (hw : 0 < w) :
    ∀ (rem : List Char) (seenCR : Bool) (count : Nat) (acc : List Char),
      acc.length + rem.length < 65536 →
      (cap = 0 ∨ acc.length < cap) →
      count + crlfCount rem seenCR < 256 →
      count < w →
      ((rrAux cap w rem seenCR count acc.length acc).isSome ↔
        (w ≤ count + crlfCount rem seenCR ∨ 0 < cap ∧ cap ≤ acc.length + rem.length)) := by
  intro rem
  induction rem with
  | nil =>
    intro seenCR count acc hlen hcap hcnt hcw
    have h0 : crlfCount ([] : List Char) seenCR = 0 := rfl
    constructor
    · intro h
      exact absurd h (by simp [rrAux])
    · intro h
      exfalso
      rcases h with h | ⟨h1, h2⟩
      · rw [h0] at h; omega
      · simp only [List.length_nil, Nat.add_zero] at h2
        omega
  | cons c rest ih =>
    intro seenCR count acc hlen hcap hcnt hcw
    have hlc : (c :: rest).length = rest.length + 1 := by simp
    rw [hlc] at hlen ⊢
    have hsz : (acc.length + 1) % 65536 = acc.length + 1 := Nat.mod_eq_of_lt (by omega)
    by_cases hc : c = '\r'
    · subst hc
      have hlen1 : (acc ++ ['\r']).length = acc.length + 1 := by simp
      have hcr : crlfCount ('\r' :: rest) seenCR = crlfCount rest true := rfl
      rw [hcr] at hcnt ⊢
      have hunf : rrAux cap w ('\r' :: rest) seenCR count acc.length acc =
          if (acc.length + 1) % 65536 = cap then some (acc ++ ['\r'])
          else rrAux cap w rest true count ((acc.length + 1) % 65536) (acc ++ ['\r']) := rfl
      rw [hunf, hsz]
      by_cases hcaphit : acc.length + 1 = cap
      · rw [if_pos hcaphit]
        constructor
        · intro _
          exact Or.inr ⟨by omega, by omega⟩
        · intro _
          rfl
      · rw [if_neg hcaphit]
        have hrec := ih true count (acc ++ ['\r'])
          (by rw [hlen1]; omega)
          (by rcases hcap with h | h
              · exact Or.inl h
              · exact Or.inr (by rw [hlen1]; omega))
          (by omega) hcw
        rw [hlen1] at hrec
        rw [hrec]
        constructor
        · rintro (h | ⟨h1, h2⟩)
          · exact Or.inl h
          · exact Or.inr ⟨h1, by omega⟩
        · rintro (h | ⟨h1, h2⟩)
          · exact Or.inl h
          · exact Or.inr ⟨h1, by omega⟩
    · by_cases hlf : c = '\n' ∧ seenCR = true
      · obtain ⟨hl1, hl2⟩ := hlf
        subst hl1
        subst hl2
        have hlen1 : (acc ++ ['\n']).length = acc.length + 1 := by simp
        have hcr : crlfCount ('\n' :: rest) true = 1 + crlfCount rest true := rfl
        rw [hcr] at hcnt ⊢
        have hcnt1 : (count + 1) % 256 = count + 1 := Nat.mod_eq_of_lt (by omega)
        have hunf : rrAux cap w ('\n' :: rest) true count acc.length acc =
            if (count + 1) % 256 = w then some (acc ++ ['\n'])
            else if (acc.length + 1) % 65536 = cap then some (acc ++ ['\n'])
            else rrAux cap w rest true ((count + 1) % 256) ((acc.length + 1) % 65536)
              (acc ++ ['\n']) := rfl
        rw [hunf, hsz, hcnt1]
        by_cases hwhit : count + 1 = w
        · rw [if_pos hwhit]
          constructor
          · intro _
            exact Or.inl (by omega)
          · intro _
            rfl
        · rw [if_neg hwhit]
          by_cases hcaphit : acc.length + 1 = cap
          · rw [if_pos hcaphit]
            constructor
            · intro _
              exact Or.inr ⟨by omega, by omega⟩
            · intro _
              rfl
          · rw [if_neg hcaphit]
            have hrec := ih true (count + 1) (acc ++ ['\n'])
              (by rw [hlen1]; omega)
              (by rcases hcap with h | h
                  · exact Or.inl h
                  · exact Or.inr (by rw [hlen1]; omega))
              (by omega) (by omega)
            rw [hlen1] at hrec
            rw [hrec]
            constructor
            · rintro (h | ⟨h1, h2⟩)
              · exact Or.inl (by omega)
              · exact Or.inr ⟨h1, by omega⟩
            · rintro (h | ⟨h1, h2⟩)
              · exact Or.inl (by omega)
              · exact Or.inr ⟨h1, by omega⟩
      · have hns : ¬ (c = '\n' ∧ seenCR = true) := hlf
        have hlen1 : (acc ++ [c]).length = acc.length + 1 := by simp
        have hcr : crlfCount (c :: rest) seenCR = crlfCount rest false := by
          simp only [crlfCount]
          rw [if_neg hc, if_neg hns]
        rw [hcr] at hcnt ⊢
        simp only [rrAux]
        rw [if_neg hc, if_neg hns, hsz]
        by_cases hcaphit : acc.length + 1 = cap
        · rw [if_pos hcaphit]
          constructor
          · intro _
            exact Or.inr ⟨by omega, by omega⟩
          · intro _
            rfl
        · rw [if_neg hcaphit]
          have hrec := ih false count (acc ++ [c])
            (by rw [hlen1]; omega)
            (by rcases hcap with h | h
                · exact Or.inl h
                · exact Or.inr (by rw [hlen1]; omega))
            (by omega) hcw
          rw [hlen1] at hrec
          rw [hrec]
          constructor
          · rintro (h | ⟨h1, h2⟩)
            · exact Or.inl h
            · exact Or.inr ⟨h1, by omega⟩
          · rintro (h | ⟨h1, h2⟩)
            · exact Or.inl h
            · exact Or.inr ⟨h1, by omega⟩

/-- Content of a successful read: the returned buffer is the non-empty
consumed prefix of the arriving bytes, and the read ended either by filling
the buffer to capacity or at a counted LF with exactly `w` detector counts
in the buffer. -/
theorem rrAux_some_content (cap w : Nat) :
    ∀ (rem acc : List Char) (S : Bool) (cnt : Nat) (buf : List Char),
      S = crlfSeen acc false →
      cnt = crlfCount acc false →
      acc.length + rem.length < 65536 →
      cnt + crlfCount rem S < 256 →
      w < 256 →
      rrAux cap w rem S cnt acc.length acc = some buf →
      (∃ p q, rem = p ++ q ∧ p ≠ [] ∧ buf = acc ++ p) ∧
      (buf.length = cap ∨ (crlfCount buf false = w ∧ buf.getLast? = some '\n')) := by
  intro rem
  induction rem with
  | nil =>
    intro acc S cnt buf hS hcntE hlen hcnt hw256 hsome
    simp [rrAux] at hsome
  | cons c rest ih =>
    intro acc S cnt buf hS hcntE hlen hcnt hw256 hsome
    subst hS
    subst hcntE
    have hlc : (c :: rest).length = rest.length + 1 := by simp
    rw [hlc] at hlen
    have hsz : (acc.length + 1) % 65536 = acc.length + 1 := Nat.mod_eq_of_lt (by omega)
    by_cases hc : c = '\r'
    · subst hc
      have hcr : crlfCount ('\r' :: rest) (crlfSeen acc false) = crlfCount rest true := rfl
      rw [hcr] at hcnt
      have hseen1 : crlfSeen (acc ++ ['\r']) false = true := by
        rw [crlfSeen_append]; rfl
      have hcount1 : crlfCount (acc ++ ['\r']) false = crlfCount acc false := by
        rw [crlfCount_append]
        have : crlfCount ['\r'] (crlfSeen acc false) = 0 := rfl
        rw [this]
        omega
      have hunf : rrAux cap w ('\r' :: rest) (crlfSeen acc false) (crlfCount acc false)
          acc.length acc =
          if (acc.length + 1) % 65536 = cap then some (acc ++ ['\r'])
          else rrAux cap w rest true (crlfCount acc false) ((acc.length + 1) % 65536)
            (acc ++ ['\r']) := rfl
      rw [hunf, hsz] at hsome
      by_cases hcaphit : acc.length + 1 = cap
      · rw [if_pos hcaphit] at hsome
        injection hsome with hbuf
        subst hbuf
        refine ⟨⟨['\r'], rest, rfl, by simp, rfl⟩, Or.inl (by simp; omega)⟩
      · rw [if_neg hcaphit] at hsome
        rw [show acc.length + 1 = (acc ++ ['\r']).length by simp] at hsome
        have hrec := ih (acc ++ ['\r']) true (crlfCount acc false) buf hseen1.symm hcount1.symm
          (by simp; omega) hcnt hw256 hsome
        obtain ⟨⟨p, q, hpq, hpne, hbp⟩, hdisj⟩ := hrec
        refine ⟨⟨'\r' :: p, q, by rw [hpq]; rfl, by simp, by rw [hbp]; simp⟩, hdisj⟩
    · rcases hflag : crlfSeen acc false with _ | _
      · -- seenCR is false: any non-CR byte just extends the buffer
        rw [hflag] at hsome hcnt
        have hcr : crlfCount (c :: rest) false = crlfCount rest false := by
          simp only [crlfCount]
          rw [if_neg hc, if_neg (by rintro ⟨-, h⟩; exact Bool.noConfusion h)]
        rw [hcr] at hcnt
        have hseen1 : crlfSeen (acc ++ [c]) false = false := by
          rw [crlfSeen_append, hflag]
          simp only [crlfSeen]
          rw [if_neg hc, if_neg (by rintro ⟨-, h⟩; exact Bool.noConfusion h)]
        have hcount1 : crlfCount (acc ++ [c]) false = crlfCount acc false := by
          rw [crlfCount_append, hflag]
          have : crlfCount [c] false = 0 := by
            simp only [crlfCount]
            rw [if_neg hc, if_neg (by rintro ⟨-, h⟩; exact Bool.noConfusion h)]
          rw [this]
          omega
        have hunf : rrAux cap w (c :: rest) false (crlfCount acc false) acc.length acc =
            if c = '\r' then
              (if (acc.length + 1) % 65536 = cap then some (acc ++ [c])
               else rrAux cap w rest true (crlfCount acc false) ((acc.length + 1) % 65536)
                 (acc ++ [c]))
            else if c = '\n' ∧ false = true then
              (if (crlfCount acc false + 1) % 256 = w then some (acc ++ [c])
               else if (acc.length + 1) % 65536 = cap then some (acc ++ [c])
               else rrAux cap w rest false ((crlfCount acc false + 1) % 256)
                 ((acc.length + 1) % 65536) (acc ++ [c]))
            else
              (if (acc.length + 1) % 65536 = cap then some (acc ++ [c])
               else rrAux cap w rest false (crlfCount acc false) ((acc.length + 1) % 65536)
                 (acc ++ [c])) := rfl
        rw [hunf, if_neg hc, if_neg (by rintro ⟨-, h⟩; exact Bool.noConfusion h), hsz] at hsome
        by_cases hcaphit : acc.length + 1 = cap
        · rw [if_pos hcaphit] at hsome
          injection hsome with hbuf
          subst hbuf
          refine ⟨⟨[c], rest, rfl, by simp, rfl⟩, Or.inl (by simp; omega)⟩
        · rw [if_neg hcaphit] at hsome
          rw [show acc.length + 1 = (acc ++ [c]).length by simp] at hsome
          have hrec := ih (acc ++ [c]) false (crlfCount acc false) buf hseen1.symm hcount1.symm
            (by simp; omega) hcnt hw256 hsome
          obtain ⟨⟨p, q, hpq, hpne, hbp⟩, hdisj⟩ := hrec
          refine ⟨⟨c :: p, q, by rw [hpq]; rfl, by simp, by rw [hbp]; simp⟩, hdisj⟩
      · -- seenCR is true
        rw [hflag] at hsome hcnt
        by_cases hn : c = '\n'
        · subst hn
          have hcr : crlfCount ('\n' :: rest) true = 1 + crlfCount rest true := rfl
          rw [hcr] at hcnt
          have hcm : (crlfCount acc false + 1) % 256 = crlfCount acc false + 1 :=
            Nat.mod_eq_of_lt (by omega)
          have hseen1 : crlfSeen (acc ++ ['\n']) false = true := by
            rw [crlfSeen_append, hflag]; rfl
          have hcount1 : crlfCount (acc ++ ['\n']) false = crlfCount acc false + 1 := by
            rw [crlfCount_append, hflag]
            have : crlfCount ['\n'] true = 1 := rfl
            rw [this]
          have hunf : rrAux cap w ('\n' :: rest) true (crlfCount acc false) acc.length acc =
              if (crlfCount acc false + 1) % 256 = w then some (acc ++ ['\n'])
              else if (acc.length + 1) % 65536 = cap then some (acc ++ ['\n'])
              else rrAux cap w rest true ((crlfCount acc false + 1) % 256)
                ((acc.length + 1) % 65536) (acc ++ ['\n']) := rfl
          rw [hunf, hcm, hsz] at hsome
          by_cases hwhit : crlfCount acc false + 1 = w
          · rw [if_pos hwhit] at hsome
            injection hsome with hbuf
            subst hbuf
            refine ⟨⟨['\n'], rest, rfl, by simp, rfl⟩,
              Or.inr ⟨by rw [hcount1]; omega, List.getLast?_concat _⟩⟩
          · rw [if_neg hwhit] at hsome
            by_cases hcaphit : acc.length + 1 = cap
            · rw [if_pos hcaphit] at hsome
              injection hsome with hbuf
              subst hbuf
              refine ⟨⟨['\n'], rest, rfl, by simp, rfl⟩, Or.inl (by simp; omega)⟩
            · rw [if_neg hcaphit] at hsome
              rw [show acc.length + 1 = (acc ++ ['\n']).length by simp] at hsome
              have hrec := ih (acc ++ ['\n']) true (crlfCount acc false + 1) buf
                hseen1.symm hcount1.symm (by simp; omega) (by omega) hw256 hsome
              obtain ⟨⟨p, q, hpq, hpne, hbp⟩, hdisj⟩ := hrec
              refine ⟨⟨'\n' :: p, q, by rw [hpq]; rfl, by simp, by rw [hbp]; simp⟩, hdisj⟩
        · -- flag set but byte is neither CR nor LF: flag is cleared
          have hcr : crlfCount (c :: rest) true = crlfCount rest false := by
            simp only [crlfCount]
            rw [if_neg hc, if_neg (by rintro ⟨h, -⟩; exact hn h)]
          rw [hcr] at hcnt
          have hseen1 : crlfSeen (acc ++ [c]) false = false := by
            rw [crlfSeen_append, hflag]
            simp only [crlfSeen]
            rw [if_neg hc, if_neg (by rintro ⟨h, -⟩; exact hn h)]
          have hcount1 : crlfCount (acc ++ [c]) false = crlfCount acc false := by
            rw [crlfCount_append, hflag]
            have : crlfCount [c] true = 0 := by
              simp only [crlfCount]
              rw [if_neg hc, if_neg (by rintro ⟨h, -⟩; exact hn h)]
            rw [this]
            omega
          have hunf : rrAux cap w (c :: rest) true (crlfCount acc false) acc.length acc =
              if c = '\r' then
                (if (acc.length + 1) % 65536 = cap then some (acc ++ [c])
                 else rrAux cap w rest true (crlfCount acc false) ((acc.length + 1) % 65536)
                   (acc ++ [c]))
              else if c = '\n' ∧ true = true then
                (if (crlfCount acc false + 1) % 256 = w then some (acc ++ [c])
                 else if (acc.length + 1) % 65536 = cap then some (acc ++ [c])
                 else rrAux cap w rest true ((crlfCount acc false + 1) % 256)
                   ((acc.length + 1) % 65536) (acc ++ [c]))
              else
                (if (acc.length + 1) % 65536 = cap then some (acc ++ [c])
                 else rrAux cap w rest false (crlfCount acc false) ((acc.length + 1) % 65536)
                   (acc ++ [c])) := rfl
          rw [hunf, if_neg hc, if_neg (by rintro ⟨h, -⟩; exact hn h), hsz] at hsome
          by_cases hcaphit : acc.length + 1 = cap
          · rw [if_pos hcaphit] at hsome
            injection hsome with hbuf
            subst hbuf
            refine ⟨⟨[c], rest, rfl, by simp, rfl⟩, Or.inl (by simp; omega)⟩
          · rw [if_neg hcaphit] at hsome
            rw [show acc.length + 1 = (acc ++ [c]).length by simp] at hsome
            have hrec := ih (acc ++ [c]) false (crlfCount acc false) buf hseen1.symm
              hcount1.symm (by simp; omega) hcnt hw256 hsome
            obtain ⟨⟨p, q, hpq, hpne, hbp⟩, hdisj⟩ := hrec
            refine ⟨⟨c :: p, q, by rw [hpq]; rfl, by simp, by rw [hbp]; simp⟩, hdisj⟩

/-- C1 (corrected): in the no-wraparound regime of the C counters (uint8
`crlfToWait`/`countCRLF`, uint16 size), `readResponse` succeeds iff, among
the bytes arriving before the timeout, the detector reaches its
`crlfToWait`-th CRLF count or the scratch buffer reaches capacity;
otherwise (timeout) it fails.  On success the buffer is the consumed prefix
of the input, filled to capacity on capacity exhaustion, and on CRLF-count
success ending exactly at the terminating LF with `crlfToWait` detector
counts.  The detector's count is `crlfCount` — the code's sticky-flag rule,
NOT the number of two-byte CRLF occurrences (see the counterexample). -/
theorem readResponse_success_characterization (input : List Char) (cap w : Nat)
    (hw : 0 < w) (hw256 : w < 256) (hlen : input.length < 65536)
    (htot : crlfCount input false < 256) :
    ((readResponse input cap w).isSome ↔
      (w ≤ crlfCount input false ∨ 0 < cap ∧ cap ≤ input.length)) ∧
    (∀ buf, readResponse input cap w = some buf →
      buf <+: input ∧
        (buf.length = cap ∨ (crlfCount buf false = w ∧ buf.getLast? = some '\n'))) := by
  constructor
  · have h := rrAux_isSome_iff cap w hw input false 0 [] (by simpa using hlen)
      (by rcases Nat.eq_zero_or_pos cap with h | h
          · exact Or.inl h
          · exact Or.inr (by simpa using h))
      (by simpa using htot) hw
    simpa [readResponse] using h
  · intro buf hbuf
    have h := rrAux_some_content cap w input [] false 0 buf rfl rfl
      (by simpa using hlen) (by simpa using htot) hw256
      (by simpa [readResponse] using hbuf)
    obtain ⟨⟨p, q, hpq, hpne, hbp⟩, hdisj⟩ := h
    refine ⟨⟨q, ?_⟩, hdisj⟩
    rw [hbp, hpq]
    simp

theorem readResponse_success_characterization_witness :
    ((readResponse ['A','T','\r','\n'] 32 1).isSome ↔
      (1 ≤ crlfCount ['A','T','\r','\n'] false ∨
        0 < 32 ∧ 32 ≤ (['A','T','\r','\n'] : List Char).length)) ∧
    ((['A','T','\r','\n'] : List Char) <+: ['A','T','\r','\n'] ∧
      ((['A','T','\r','\n'] : List Char).length = 32 ∨
        (crlfCount ['A','T','\r','\n'] false = 1 ∧
          (['A','T','\r','\n'] : List Char).getLast? = some '\n'))) := by
  have h := readResponse_success_characterization ['A','T','\r','\n'] 32 1
    (by decide) (by decide) (by decide) (by decide)
  exact ⟨h.1, h.2 ['A','T','\r','\n'] rfl⟩

/-- C1 counterexample: on the incoming bytes CR LF LF with `crlfToWait = 2`
the reader succeeds, although those bytes contain only ONE occurrence of
the two-byte CRLF sequence and the capacity (100) is not reached: after a
counted CRLF the code keeps `seenCR` set, so the bare second LF is counted
as a second CRLF termination, refuting the claim's "the crlfToWait-th CRLF
sequence is observed" success condition. -/
theorem readResponse_counts_bare_LF_after_CRLF :
    (readResponse ['\r','\n','\n'] 100 2).isSome = true ∧
    crlfPairCount ['\r','\n','\n'] = 1 ∧
    ¬ (2 ≤ crlfPairCount ['\r','\n','\n'] ∨
        0 < 100 ∧ 100 ≤ (['\r','\n','\n'] : List Char).length) :=
  ⟨rfl, rfl, by decide⟩

/-- Model of `SIM800L::readResponseCheckAnswer_P` (SIM800L.cpp lines 768-781): read
a response, then report success only when the expected answer is found at
a strictly positive index of the scratch buffer. -/
def readResponseCheckAnswer (input : List Char) (cap : Nat) (expectedAnswer : List Char)
    (crlfToWait : Nat) : Bool :=
  match readResponse input cap crlfToWait with
  | none => false
  | some buf => if 0 < strIndex buf expectedAnswer 0 then true else false

/-- C3 (confirmed): the check-answer helper returns true iff the underlying
`readResponse` succeeds and the matcher places the expected token at a
strictly positive index of the scratch buffer; a match at index 0 (like a
failed match, index -1) yields false. -/
theorem readResponseCheckAnswer_iff (input : List Char) (cap : Nat)
    (expectedAnswer : List Char) (crlfToWait : Nat) :
    readResponseCheckAnswer input cap expectedAnswer crlfToWait = true ↔
      ∃ buf, readResponse input cap crlfToWait = some buf ∧
        0 < strIndex buf expectedAnswer 0 := by
  constructor
  · intro hb
    unfold readResponseCheckAnswer at hb
    rcases h : readResponse input cap crlfToWait with _ | buf
    · rw [h] at hb
      change false = true at hb
      exact Bool.noConfusion hb
    · rw [h] at hb
      change (if 0 < strIndex buf expectedAnswer 0 then true else false) = true at hb
      refine ⟨buf, rfl, ?_⟩
      by_contra hneg
      rw [if_neg hneg] at hb
      exact Bool.noConfusion hb
  · rintro ⟨buf, hb, hpos⟩
    unfold readResponseCheckAnswer
    rw [hb]
    change (if 0 < strIndex buf expectedAnswer 0 then true else false) = true
    rw [if_pos hpos]

/-- Read the scratch buffer at absolute index `i`.  The C buffer is
zero-filled before every read, so positions past the accumulated bytes
read as NUL. -/
def chAt (buf : List Char) (i : Nat) : Char := buf.getD i NULc

/-- The C `int` expression `internalBuffer[i] - '0'`. -/
def digAt (buf : List Char) (i : Nat) : Int := ((chAt buf i).toNat : Int) - 48

/-- One `httpRC += e` step: the int sum is stored back into the uint16
accumulator, i.e. reduced modulo 65536 (`Int.emod` is the C conversion of
a possibly negative int to uint16). -/
def u16add (h : Nat) (e : Int) : Nat := (((h : Int) + e) % 65536).toNat

/-- The known prefix `"+HTTPACTION: 0,"` of the GET action response. -/
def ACTION0_TOK : List Char :=
  ['+','H','T','T','P','A','C','T','I','O','N',':',' ','0',',']

/-- The known prefix `"+HTTPACTION: 1,"` of the POST action response. -/
def ACTION1_TOK : List Char :=
  ['+','H','T','T','P','A','C','T','I','O','N',':',' ','1',',']

/-- HTTP status extraction of `doGet` (SIM800L.cpp lines 283-286; `doPost`
lines 173-176 are identical): the three digit positions at offsets
15, 16, 17 after the located action prefix, weighted 100/10/1. -/
def parseHttpRC (buf : List Char) (idxBase : Nat) : Nat :=
  u16add (u16add (u16add 0 (digAt buf (idxBase + 15) * 100))
    (digAt buf (idxBase + 16) * 10)) (digAt buf (idxBase + 17) * 1)

/-- Payload-length loop of `doGet` (lines 295-301; `doPost` lines 185-191):
from the digit run starting at the current position, accumulate into the
uint16 `dataSize`, multiplying by 10 before every digit except the first
(`i != 0`), stopping at the first non-digit byte.  `i` is the uint16 loop
counter. -/
def parseDataSizeAux : List Char → Nat → Nat → Nat
  | [], _, acc => acc
  | c :: rest, i, acc =>
    if 48 ≤ c.toNat ∧ c.toNat ≤ 57 then
      parseDataSizeAux rest ((i + 1) % 65536)
        (((if i ≠ 0 then (acc * 10) % 65536 else acc) + (c.toNat - 48)) % 65536)
    else acc

/-- The `dataSize` value as parsed by the GET flow from the buffer position
`idxBase + 19` (first digit of the length field). -/
def parseDataSize (buf : List Char) (idxBase : Nat) : Nat :=
  parseDataSizeAux (buf.drop (idxBase + 19)) 0 0

/-- An ASCII digit byte, as the C condition `(c - '0') >= 0 && (c - '0') <= 9`
classifies it. -/
def isDigitC (c : Char) : Prop := 48 ≤ c.toNat ∧ c.toNat ≤ 57

instance (c : Char) : Decidable (isDigitC c) := by
  unfold isDigitC
  infer_instance

/-- The decimal value of a digit run, most significant digit first. -/
def decimalVal (ds : List Char) : Nat :=
  ds.foldl (fun a c => a * 10 + (c.toNat - 48)) 0

theorem getD_drop_eq (buf : List Char) (i k : Nat) (d : Char) :
    (buf.drop i).getD k d = buf.getD (i + k) d := by
  simp [List.getD_eq_getElem?_getD, drop_getElem? i buf k]

theorem parseDataSizeAux_stop (rest : List Char) (i acc : Nat)
    (hrest : ¬ isDigitC (rest.headD NULc)) :
    parseDataSizeAux rest i acc = acc := by
  cases rest with
  | nil => rfl
  | cons c r =>
    simp only [parseDataSizeAux]
    rw [if_neg (by simpa [isDigitC] using hrest)]

theorem parseDataSizeAux_digits :
    ∀ (ds rest : List Char) (i acc A : Nat),
      (∀ c ∈ ds, isDigitC c) → ¬ isDigitC (rest.headD NULc) →
      1 ≤ i → i + ds.length < 65536 →
      acc = A % 65536 →
      parseDataSizeAux (ds ++ rest) i acc =
        (ds.foldl (fun a c => a * 10 + (c.toNat - 48)) A) % 65536 := by
  intro ds
  induction ds with
  | nil =>
    intro rest i acc A hds hrest hi hlen hacc
    simp only [List.nil_append, List.foldl_nil]
    rw [parseDataSizeAux_stop rest i acc hrest, hacc]
  | cons c dtl ih =>
    intro rest i acc A hds hrest hi hlen hacc
    have hc : isDigitC c := hds c (by simp)
    simp only [List.cons_append, parseDataSizeAux, List.foldl_cons]
    rw [if_pos (by exact hc), if_pos (by omega : i ≠ 0)]
    have hlc : (c :: dtl).length = dtl.length + 1 := by simp
    rw [hlc] at hlen
    have hi1 : (i + 1) % 65536 = i + 1 := Nat.mod_eq_of_lt (by omega)
    rw [hi1]
    apply ih rest (i + 1) _ (A * 10 + (c.toNat - 48))
      (fun x hx => hds x (by simp [hx])) hrest (by omega) (by omega)
    subst hacc
    omega

theorem u16add_digit (h w : Nat) (c : Char) (hn : 48 ≤ c.toNat)
    (hsmall : h + (c.toNat - 48) * w < 65536) :
    u16add h (((c.toNat : Int) - 48) * ((w : Nat) : Int)) = h + (c.toNat - 48) * w := by
  have hs : ((c.toNat - 48 : Nat) : Int) = (c.toNat : Int) - 48 := by
    rw [Nat.cast_sub hn, Nat.cast_ofNat]
  have hcast : (h : Int) + ((c.toNat : Int) - 48) * (w : Int)
      = ((h + (c.toNat - 48) * w : Nat) : Int) := by
    rw [Nat.cast_add, Nat.cast_mul, hs]
  unfold u16add
  rw [hcast, Int.emod_eq_of_lt (Int.natCast_nonneg _) (by exact_mod_cast hsmall),
    Int.toNat_natCast]

/-- C4 (confirmed): from a buffer holding the known GET action prefix
followed by three status digits, a comma and a digit run, the GET flow
extracts the status from the three digit positions at offsets 15-17 after
the prefix, and the length by left-to-right accumulation (times 10 per
subsequent digit, modulo the uint16 range) stopping at the first non-digit
byte.  With `ds = ['0']` this yields 0 (the single-digit path). -/
theorem httpaction_parse_spec (buf : List Char) (idx : Nat) (d1 d2 d3 : Char)
    (ds rest : List Char)
    (hbuf : buf.drop idx = ACTION0_TOK ++ [d1, d2, d3] ++ [','] ++ ds ++ rest)
    (hd1 : isDigitC d1) (hd2 : isDigitC d2) (hd3 : isDigitC d3)
    (hds : ∀ c ∈ ds, isDigitC c)
    (hrest : ¬ isDigitC (rest.headD NULc))
    (hlen : ds.length < 65535) :
    parseHttpRC buf idx = (d1.toNat - 48) * 100 + (d2.toNat - 48) * 10 + (d3.toNat - 48) ∧
    parseDataSize buf idx = decimalVal ds % 65536 := by
  have h15 : chAt buf (idx + 15) = d1 := by
    rw [chAt, ← getD_drop_eq, hbuf]; rfl
  have h16 : chAt buf (idx + 16) = d2 := by
    rw [chAt, ← getD_drop_eq, hbuf]; rfl
  have h17 : chAt buf (idx + 17) = d3 := by
    rw [chAt, ← getD_drop_eq, hbuf]; rfl
  have hdrop : buf.drop (idx + 19) = ds ++ rest := by
    have h1 : (buf.drop idx).drop 19 = buf.drop (idx + 19) := List.drop_drop 19 idx buf
    rw [← h1, hbuf]
    rfl
  constructor
  · obtain ⟨ha1, hb1⟩ := hd1
    obtain ⟨ha2, hb2⟩ := hd2
    obtain ⟨ha3, hb3⟩ := hd3
    have e1 : u16add 0 (digAt buf (idx + 15) * 100) = (d1.toNat - 48) * 100 := by
      simp only [digAt, h15]
      have h100 : (100 : Int) = ((100 : Nat) : Int) := by norm_num
      rw [h100, u16add_digit 0 100 d1 ha1 (by omega), Nat.zero_add]
    have e2 : u16add ((d1.toNat - 48) * 100) (digAt buf (idx + 16) * 10) =
        (d1.toNat - 48) * 100 + (d2.toNat - 48) * 10 := by
      simp only [digAt, h16]
      have h10 : (10 : Int) = ((10 : Nat) : Int) := by norm_num
      rw [h10, u16add_digit ((d1.toNat - 48) * 100) 10 d2 ha2 (by omega)]
    have e3 : u16add ((d1.toNat - 48) * 100 + (d2.toNat - 48) * 10)
        (digAt buf (idx + 17) * 1) =
        (d1.toNat - 48) * 100 + (d2.toNat - 48) * 10 + (d3.toNat - 48) := by
      simp only [digAt, h17]
      have h1c : (1 : Int) = ((1 : Nat) : Int) := by norm_num
      rw [h1c, u16add_digit ((d1.toNat - 48) * 100 + (d2.toNat - 48) * 10) 1 d3 ha3
        (by omega), Nat.mul_one]
    rw [parseHttpRC, e1, e2, e3]
  · rw [parseDataSize, hdrop]
    cases ds with
    | nil =>
      simp only [List.nil_append]
      rw [parseDataSizeAux_stop rest 0 0 hrest]
      rfl
    | cons c dtl =>
      have hc : isDigitC c := hds c (by simp)
      simp only [List.cons_append, parseDataSizeAux, List.append_eq]
      rw [if_pos (by exact hc), if_neg (by omega : ¬ (0 : Nat) ≠ 0)]
      have h01 : (0 + 1) % 65536 = 1 := rfl
      rw [h01]
      have hstep := parseDataSizeAux_digits dtl rest 1 ((0 + (c.toNat - 48)) % 65536)
        (c.toNat - 48) (fun x hx => hds x (by simp [hx])) hrest (by omega)
        (by simp only [List.length_cons] at hlen; omega) (by omega)
      rw [hstep]
      simp [decimalVal]

/-- A concrete GET action response line `"+HTTPACTION: 0,200,1234\r\n"`. -/
def HTTPACTION_EXAMPLE : List Char :=
  ACTION0_TOK ++ ['2','0','0'] ++ [','] ++ ['1','2','3','4'] ++ ['\r','\n']

theorem httpaction_parse_spec_witness :
    parseHttpRC HTTPACTION_EXAMPLE 0 = 200 ∧
    parseDataSize HTTPACTION_EXAMPLE 0 = 1234 := by
  have h := httpaction_parse_spec HTTPACTION_EXAMPLE 0 '2' '0' '0'
    ['1','2','3','4'] ['\r','\n']
    (by rfl) (by decide) (by decide) (by decide) (by decide) (by decide) (by decide)
  exact ⟨h.1.trans (by decide), h.2.trans (by decide)⟩

/-- The CR/LF filter of the payload copy: true for bytes that are stored. -/
def notCRLF (c : Char) : Bool := if c = '\r' ∨ c = '\n' then false else true

/-- Payload copy loop of `doGet` (SIM800L.cpp lines 316-326; `doPost` lines
206-216 are identical): while the store index `i` is below both the
declared length `d` and the receive capacity `r`, block for the next
transport byte; a CR or LF byte is consumed without advancing `i` (the C
code stores it and backs `i` up, so it is overwritten before the loop can
exit); any other byte is stored.  Arguments after `d r`: the remaining
transport bytes, `i`, the bytes stored so far, and the count of raw bytes
consumed.  `none` models the infinite `while(!available())` block on an
exhausted transport. -/
def payloadCopy (d r : Nat) : List Char → Nat → List Char → Nat → Option (List Char × Nat)
  | s, i, acc, consumed =>
    if i < d ∧ i < r then
      match s with
      | [] => none
      | c :: rest =>
        if c = '\r' ∨ c = '\n' then payloadCopy d r rest i acc (consumed + 1)
        else payloadCopy d r rest (i + 1) (acc ++ [c]) (consumed + 1)
    else some (acc, consumed)

theorem payloadCopy_sound (d r : Nat) :
    ∀ (s acc : List Char) (consumed : Nat) (buf : List Char) (k : Nat),
      acc.length ≤ d → acc.length ≤ r →
      payloadCopy d r s acc.length acc consumed = some (buf, k) →
      ∃ p q, s = p ++ q ∧ k = consumed + p.length ∧
        buf = acc ++ p.filter notCRLF ∧ buf.length = min d r := by
  intro s
  induction s with
  | nil =>
    intro acc consumed buf k hd hr hsome
    simp only [payloadCopy] at hsome
    by_cases hcond : acc.length < d ∧ acc.length < r
    · rw [if_pos hcond] at hsome
      exact Option.noConfusion hsome
    · rw [if_neg hcond] at hsome
      injection hsome with hpair
      injection hpair with hbuf hk
      subst hbuf
      subst hk
      exact ⟨[], [], rfl, by simp, by simp, by omega⟩
  | cons c rest ih =>
    intro acc consumed buf k hd hr hsome
    simp only [payloadCopy] at hsome
    by_cases hcond : acc.length < d ∧ acc.length < r
    · rw [if_pos hcond] at hsome
      by_cases hcrlf : c = '\r' ∨ c = '\n'
      · rw [if_pos hcrlf] at hsome
        obtain ⟨p, q, hpq, hk, hbuf, hlen⟩ :=
          ih acc (consumed + 1) buf k hd hr hsome
        refine ⟨c :: p, q, by rw [hpq]; rfl, by simp; omega, ?_, hlen⟩
        rw [hbuf, List.filter_cons, if_neg (by simp [notCRLF, if_pos hcrlf])]
      · rw [if_neg hcrlf] at hsome
        rw [show acc.length + 1 = (acc ++ [c]).length by simp] at hsome
        obtain ⟨p, q, hpq, hk, hbuf, hlen⟩ :=
          ih (acc ++ [c]) (consumed + 1) buf k (by simp; omega) (by simp; omega) hsome
        refine ⟨c :: p, q, by rw [hpq]; rfl, by simp; omega, ?_, hlen⟩
        rw [hbuf, List.filter_cons, if_pos (by simp [notCRLF, if_neg hcrlf])]
        simp
    · rw [if_neg hcond] at hsome
      injection hsome with hpair
      injection hpair with hbuf hk
      subst hbuf
      subst hk
      exact ⟨[], c :: rest, rfl, by simp, by simp, by omega⟩

/-- C5 (corrected): the payload copy consumes a prefix of the transport
stream, stores exactly its non-CR/LF bytes in order, and stops once
`min(declaredLength, receiveBufferCapacity)` bytes are stored.  On the
spec's example stream `['H','i',CR,'!',LF]` with declared length 3, the
receive buffer ends up holding `"Hi!"` — but the copy consumes 4 raw bytes,
not 5: the loop exits as soon as the third payload byte is stored and never
reads the trailing LF (the following read pass consumes it). -/
theorem payloadCopy_spec (s : List Char) (d r : Nat) (buf : List Char) (k : Nat)
    (h : payloadCopy d r s 0 [] 0 = some (buf, k)) :
    k ≤ s.length ∧
    buf = (s.take k).filter notCRLF ∧
    buf.length = min d r ∧
    payloadCopy 3 8 ['H','i','\r','!','\n'] 0 [] 0 = some (['H','i','!'], 4) := by
  obtain ⟨p, q, hpq, hk, hbuf, hlen⟩ := payloadCopy_sound d r s [] 0 buf k
    (by simp) (by simp) (by simpa using h)
  subst hpq
  subst hk
  refine ⟨by simp, ?_, hlen, rfl⟩
  rw [hbuf]
  simp [List.take_left]

theorem payloadCopy_spec_witness :
    4 ≤ (['H','i','\r','!','\n'] : List Char).length ∧
    (['H','i','!'] : List Char) =
      ((['H','i','\r','!','\n'] : List Char).take 4).filter notCRLF ∧
    (['H','i','!'] : List Char).length = min 3 8 ∧
    payloadCopy 3 8 ['H','i','\r','!','\n'] 0 [] 0 = some (['H','i','!'], 4) :=
  payloadCopy_spec ['H','i','\r','!','\n'] 3 8 ['H','i','!'] 4 rfl

/-- C5 counterexample: on the spec's example stream the copy step consumes
4 raw bytes, not the claimed 5 — the trailing LF is left on the transport. -/
theorem payloadCopy_consumes_four_bytes :
    payloadCopy 3 8 ['H','i','\r','!','\n'] 0 [] 0 = some (['H','i','!'], 4) ∧
    payloadCopy 3 8 ['H','i','\r','!','\n'] 0 [] 0 ≠ some (['H','i','!'], 5) :=
  ⟨rfl, by decide⟩

/-- The `ERROR` token checked by the status queries. -/
def ERROR_TOK : List Char := ['E','R','R','O','R']

/-- The `"+CFUN: "` prefix of the power-mode reply. -/
def CFUN_TOK : List Char := ['+','C','F','U','N',':',' ']

/-- The `"+CREG: "` prefix of the registration reply. -/
def CREG_TOK : List Char := ['+','C','R','E','G',':',' ']

/-- The echoed `"AT+CSQ"` command text located by `getSignal`. -/
def CSQ_TOK : List Char := ['A','T','+','C','S','Q']

/-- The comma separator located by `getSignal`. -/
def COMMA_TOK : List Char := [',']

/-- The power modes of `SIM800L.h`. -/
inductive PowerMode
  | MINIMUM
  | NORMAL
  | SLEEP
  | POW_UNKNOWN
  | POW_ERROR
deriving DecidableEq

/-- The network registration states of `SIM800L.h`. -/
inductive NetworkRegistration
  | NOT_REGISTERED
  | REGISTERED_HOME
  | SEARCHING
  | DENIED
  | REGISTERED_ROAMING
  | NET_UNKNOWN
  | NET_ERROR
deriving DecidableEq

/-- Model of `SIM800L::getPowerMode` (SIM800L.cpp lines 459-481) on one device
reply segment: read a response (ERROR on timeout), return ERROR when the
matcher puts the `ERROR` token at a strictly positive index, otherwise
read the character 7 positions after the located `"+CFUN: "` prefix (the C
code indexes `idx + 7` even when `idx` is the -1 sentinel). -/
def getPowerModeOn (input : List Char) (cap : Nat) : PowerMode :=
  match readResponse input cap 1 with
  | some buf =>
    if 0 < strIndex buf ERROR_TOK 0 then PowerMode.POW_ERROR
    else
      let idx := strIndex buf CFUN_TOK 0
      let value := chAt buf (idx + 7).toNat
      if value = '0' then PowerMode.MINIMUM
      else if value = '1' then PowerMode.NORMAL
      else if value = '4' then PowerMode.SLEEP
      else PowerMode.POW_UNKNOWN
  | none => PowerMode.POW_ERROR

/-- Model of `SIM800L::getRegistrationStatus` (SIM800L.cpp lines 486-511) on one
device reply segment; the value character sits 9 positions after the
located `"+CREG: "` prefix. -/
def getRegistrationStatusOn (input : List Char) (cap : Nat) : NetworkRegistration :=
  match readResponse input cap 1 with
  | some buf =>
    if 0 < strIndex buf ERROR_TOK 0 then NetworkRegistration.NET_ERROR
    else
      let idx := strIndex buf CREG_TOK 0
      let value := chAt buf (idx + 9).toNat
      if value = '0' then NetworkRegistration.NOT_REGISTERED
      else if value = '1' then NetworkRegistration.REGISTERED_HOME
      else if value = '2' then NetworkRegistration.SEARCHING
      else if value = '3' then NetworkRegistration.DENIED
      else if value = '5' then NetworkRegistration.REGISTERED_ROAMING
      else NetworkRegistration.NET_UNKNOWN
  | none => NetworkRegistration.NET_ERROR

/-- Model of `SIM800L::setPowerMode` (SIM800L.cpp lines 553-599).  `script` lists
the device's replies, one segment per read pass: segment 0 feeds the first
`getPowerMode` query, segment 1 the `readToForget(10000)` after the
mode-change command, segment 2 the re-query.  The second component lists
the mode-change commands (`AT+CFUN=n`) issued, identified by their target
mode; the status query `AT+CFUN?` is not a mode-change command and is not
tracked. -/
def setPowerMode (req : PowerMode) (script : List (List Char)) (cap : Nat) :
    Bool × List PowerMode :=
  if req = PowerMode.POW_ERROR ∨ req = PowerMode.POW_UNKNOWN then (false, [])
  else
    let currentPowerMode := getPowerModeOn (script.getD 0 []) cap
    if currentPowerMode = PowerMode.POW_ERROR ∨
        currentPowerMode = PowerMode.POW_UNKNOWN then (false, [])
    else if currentPowerMode = req then (true, [])
    else if (currentPowerMode = PowerMode.SLEEP ∨ currentPowerMode = PowerMode.MINIMUM) ∧
        req ≠ PowerMode.NORMAL then (false, [])
    else
      (if getPowerModeOn (script.getD 2 []) cap = req then true else false, [req])

/-- C8 (confirmed): `setPowerMode` rejects an ERROR/UNKNOWN request, or an
ERROR/UNKNOWN queried current mode, with no mode-change command sent;
answers true at once when the current mode already equals the request;
rejects, again without sending a mode-change command, any non-NORMAL
request from SLEEP or MINIMUM; and otherwise sends exactly the one
mode-change command, ignores its reply, and reports whether the re-queried
mode equals the request. -/
theorem setPowerMode_spec (req : PowerMode) (script : List (List Char)) (cap : Nat) :
    ((req = PowerMode.POW_ERROR ∨ req = PowerMode.POW_UNKNOWN) →
      setPowerMode req script cap = (false, [])) ∧
    (¬ (req = PowerMode.POW_ERROR ∨ req = PowerMode.POW_UNKNOWN) →
      ((getPowerModeOn (script.getD 0 []) cap = PowerMode.POW_ERROR ∨
          getPowerModeOn (script.getD 0 []) cap = PowerMode.POW_UNKNOWN) →
        setPowerMode req script cap = (false, [])) ∧
      (¬ (getPowerModeOn (script.getD 0 []) cap = PowerMode.POW_ERROR ∨
          getPowerModeOn (script.getD 0 []) cap = PowerMode.POW_UNKNOWN) →
        (getPowerModeOn (script.getD 0 []) cap = req →
          setPowerMode req script cap = (true, [])) ∧
        (getPowerModeOn (script.getD 0 []) cap ≠ req →
          (getPowerModeOn (script.getD 0 []) cap = PowerMode.SLEEP ∨
            getPowerModeOn (script.getD 0 []) cap = PowerMode.MINIMUM) →
          req ≠ PowerMode.NORMAL →
          setPowerMode req script cap = (false, [])) ∧
        (getPowerModeOn (script.getD 0 []) cap ≠ req →
          ¬ ((getPowerModeOn (script.getD 0 []) cap = PowerMode.SLEEP ∨
              getPowerModeOn (script.getD 0 []) cap = PowerMode.MINIMUM) ∧
            req ≠ PowerMode.NORMAL) →
          setPowerMode req script cap =
            (if getPowerModeOn (script.getD 2 []) cap = req then true else false,
              [req])))) := by
  refine ⟨?_, ?_⟩
  · intro h
    simp only [setPowerMode]
    rw [if_pos h]
  · intro h1
    refine ⟨?_, ?_⟩
    · intro h2
      simp only [setPowerMode]
      rw [if_neg h1, if_pos h2]
    · intro h2
      refine ⟨?_, ?_, ?_⟩
      · intro h3
        simp only [setPowerMode]
        rw [if_neg h1, if_neg h2, if_pos h3]
      · intro h3 h4 h5
        simp only [setPowerMode]
        rw [if_neg h1, if_neg h2, if_neg h3, if_pos ⟨h4, h5⟩]
      · intro h3 h4
        simp only [setPowerMode]
        rw [if_neg h1, if_neg h2, if_neg h3, if_neg h4]

/-- A power-mode reply segment `"+CFUN: 4\r\n"` reporting SLEEP. -/
def CFUN4_SEG : List Char := ['+','C','F','U','N',':',' ','4','\r','\n']

theorem setPowerMode_spec_witness :
    setPowerMode PowerMode.MINIMUM [CFUN4_SEG] 64 = (false, []) := by
  have h := setPowerMode_spec PowerMode.MINIMUM [CFUN4_SEG] 64
  exact ((h.2 (by decide)).2 (by decide)).2.1 (by decide) (by decide) (by decide)

/-- C9 (corrected): when a status query reads a response in which the
matcher locates the `ERROR` token at a STRICTLY POSITIVE index, the query
returns its ERROR enumerant immediately.  (The code's test is `errIdx > 0`,
so a token standing at index 0 — and any occurrence the naive matcher
misses — is NOT detected; see the counterexample.) -/
theorem statusQuery_error_token_positive_index (input : List Char) (cap : Nat)
    (buf : List Char) (h : readResponse input cap 1 = some buf)
    (he : 0 < strIndex buf ERROR_TOK 0) :
    getPowerModeOn input cap = PowerMode.POW_ERROR ∧
    getRegistrationStatusOn input cap = NetworkRegistration.NET_ERROR := by
  constructor
  · unfold getPowerModeOn
    rw [h]
    change (if 0 < strIndex buf ERROR_TOK 0 then PowerMode.POW_ERROR else _) = _
    rw [if_pos he]
  · unfold getRegistrationStatusOn
    rw [h]
    change (if 0 < strIndex buf ERROR_TOK 0 then NetworkRegistration.NET_ERROR else _) = _
    rw [if_pos he]

/-- A reply segment `" ERROR\r\n"` with the ERROR token at index 1. -/
def ERR_AT1_SEG : List Char := [' ','E','R','R','O','R','\r','\n']

theorem statusQuery_error_token_positive_index_witness :
    getPowerModeOn ERR_AT1_SEG 64 = PowerMode.POW_ERROR ∧
    getRegistrationStatusOn ERR_AT1_SEG 64 = NetworkRegistration.NET_ERROR :=
  statusQuery_error_token_positive_index ERR_AT1_SEG 64
    [' ','E','R','R','O','R','\r','\n'] rfl (by decide)

/-- A reply segment `"ERROR\r\n"` with the ERROR token at index 0. -/
def ERR_AT0_SEG : List Char := ['E','R','R','O','R','\r','\n']

/-- C9 counterexample: a response that BEGINS with `ERROR` (the token
occurs, at index 0) makes both status queries fall through to value
extraction and return their UNKNOWN enumerant, not ERROR — refuting the
claim that an `ERROR` token anywhere in the response yields the ERROR
enumerant. -/
theorem error_token_at_index_zero_not_detected :
    readResponse ERR_AT0_SEG 64 1 = some ['E','R','R','O','R','\r','\n'] ∧
    List.take 5 ['E','R','R','O','R','\r','\n'] = ERROR_TOK ∧
    getPowerModeOn ERR_AT0_SEG 64 = PowerMode.POW_UNKNOWN ∧
    getRegistrationStatusOn ERR_AT0_SEG 64 = NetworkRegistration.NET_UNKNOWN :=
  ⟨rfl, rfl, rfl, rfl⟩

/-- Option-returning scratch-buffer access for `getSignal`: `some` of the
byte at a valid non-negative index, `none` where the C access
`internalBuffer[i]` would be out of bounds (negative index in particular). -/
def charAtOpt (buf : List Char) (i : Int) : Option Char :=
  if 0 ≤ i ∧ i.toNat < buf.length then some (buf.getD i.toNat NULc) else none

/-- The two-character signal-strength decode of `getSignal` (SIM800L.cpp
lines 612-619): units digit at `idxEnd - 1`, optional tens digit at
`idxEnd - 2` (skipped when that byte is a space), uint8 arithmetic, and
the 0-31 range check zeroing out-of-range values. -/
def signalValue (c1 c2 : Char) : Nat :=
  let v1 := (((c1.toNat : Int) - 48) % 256)
  let v := if c2 ≠ ' ' then (v1 + ((c2.toNat : Int) - 48) * 10) % 256 else v1
  if 31 < v then 0 else v.toNat

/-- Model of `SIM800L::getSignal` (SIM800L.cpp lines 604-622) on one reply segment,
with Option-returning indexing: `none` marks an out-of-bounds scratch
buffer access at `idxEnd - 1` / `idxEnd - 2`. -/
def getSignalOn (input : List Char) (cap : Nat) : Option Nat :=
  match readResponse input cap 1 with
  | some buf =>
    let idxBase := strIndex buf CSQ_TOK 0
    if idxBase ≠ 0 then some 0
    else
      let idxEnd := strIndex buf COMMA_TOK idxBase.toNat
      match charAtOpt buf (idxEnd - 1), charAtOpt buf (idxEnd - 2) with
      | some c1, some c2 => some (signalValue c1 c2)
      | _, _ => none
  | none => some 0

theorem take_one_getD (l : List Char) (a d : Char) (h : l.take 1 = [a]) :
    l.getD 0 d = a := by
  cases l with
  | nil => simp at h
  | cons c t =>
    simp at h
    simpa using h

theorem getD_of_take (l t : List Char) (n k : Nat) (d : Char) (h : l.take n = t)
    (hk : k < n) : l.getD k d = t.getD k d := by
  rw [← h, List.getD_eq_getElem?_getD, List.getD_eq_getElem?_getD,
    List.getElem?_take_of_lt hk]

/-- C10 (corrected): after a successful read whose buffer carries the
echoed `"AT+CSQ"` at index 0, the two scratch-buffer reads at `idxEnd - 1`
and `idxEnd - 2` are at valid non-negative indices PROVIDED the comma
search succeeds (`idxEnd ≥ 0`): the comma then sits at an index ≥ 6 (the
first six characters are the echo), so both accesses are in bounds and
`getSignal` reaches no out-of-bounds branch.  When the buffer holds no
comma the sentinel -1 makes the accesses out of bounds (see the
counterexample), so the unqualified claim fails. -/
theorem getSignal_access_safe (input : List Char) (cap : Nat) (buf : List Char)
    (hr : readResponse input cap 1 = some buf)
    (hbase : strIndex buf CSQ_TOK 0 = 0)
    (hcomma : 0 ≤ strIndex buf COMMA_TOK 0) :
    2 ≤ strIndex buf COMMA_TOK 0 ∧
    (charAtOpt buf (strIndex buf COMMA_TOK 0 - 1)).isSome = true ∧
    (charAtOpt buf (strIndex buf COMMA_TOK 0 - 2)).isSome = true ∧
    (getSignalOn input cap).isSome = true := by
  have hl6 : CSQ_TOK.length = 6 := rfl
  have hcsq := strIndexAux_sound CSQ_TOK buf 0 (buf.drop 0) 0 (-1) 0 rfl le_rfl
    (Nat.zero_le _) (Or.inl ⟨rfl, rfl⟩) 0 hbase le_rfl
  obtain ⟨-, hblen, htake⟩ := hcsq
  simp only [Int.toNat_zero, List.drop_zero] at hblen htake
  have hcom := strIndexAux_sound COMMA_TOK buf 0 (buf.drop 0) 0 (-1) 0 rfl le_rfl
    (Nat.zero_le _) (Or.inl ⟨rfl, rfl⟩) (strIndex buf COMMA_TOK 0) rfl hcomma
  obtain ⟨-, helen, hetake⟩ := hcom
  have hl1 : COMMA_TOK.length = 1 := rfl
  rw [hl1] at helen
  have helem : (buf.drop (strIndex buf COMMA_TOK 0).toNat).getD 0 NULc = ',' :=
    take_one_getD _ ',' NULc hetake
  have helem2 : buf.getD (strIndex buf COMMA_TOK 0).toNat NULc = ',' := by
    have h := (getD_drop_eq buf (strIndex buf COMMA_TOK 0).toNat 0 NULc).symm.trans helem
    simpa using h
  have hne : ∀ j, j < 6 → CSQ_TOK.getD j NULc ≠ ',' := by decide
  have h6 : 6 ≤ (strIndex buf COMMA_TOK 0).toNat := by
    by_contra hlt
    push_neg at hlt
    have hx := getD_of_take buf CSQ_TOK CSQ_TOK.length
      (strIndex buf COMMA_TOK 0).toNat NULc htake (by omega)
    rw [helem2] at hx
    exact hne _ hlt hx.symm
  have hs1 : (charAtOpt buf (strIndex buf COMMA_TOK 0 - 1)).isSome = true := by
    unfold charAtOpt
    rw [if_pos ⟨by omega, by omega⟩]
    rfl
  have hs2 : (charAtOpt buf (strIndex buf COMMA_TOK 0 - 2)).isSome = true := by
    unfold charAtOpt
    rw [if_pos ⟨by omega, by omega⟩]
    rfl
  refine ⟨by omega, hs1, hs2, ?_⟩
  unfold getSignalOn
  rw [hr]
  change (if strIndex buf CSQ_TOK 0 ≠ 0 then some 0 else _).isSome = true
  rw [hbase, if_neg (by simp), Int.toNat_zero]
  obtain ⟨c1, hc1⟩ := Option.isSome_iff_exists.mp hs1
  obtain ⟨c2, hc2⟩ := Option.isSome_iff_exists.mp hs2
  change (match charAtOpt buf (strIndex buf COMMA_TOK 0 - 1),
      charAtOpt buf (strIndex buf COMMA_TOK 0 - 2) with
    | some c1, some c2 => some (signalValue c1 c2)
    | _, _ => none).isSome = true
  rw [hc1, hc2]
  rfl

/-- A reply segment `"AT+CSQ 15,0\r\n"`: echo at index 0 and a comma. -/
def CSQ_SEG : List Char := ['A','T','+','C','S','Q',' ','1','5',',','0','\r','\n']

theorem getSignal_access_safe_witness :
    2 ≤ strIndex CSQ_SEG COMMA_TOK 0 ∧
    (charAtOpt CSQ_SEG (strIndex CSQ_SEG COMMA_TOK 0 - 1)).isSome = true ∧
    (charAtOpt CSQ_SEG (strIndex CSQ_SEG COMMA_TOK 0 - 2)).isSome = true ∧
    (getSignalOn CSQ_SEG 64).isSome = true :=
  getSignal_access_safe CSQ_SEG 64 CSQ_SEG rfl rfl (by decide)

/-- A reply segment `"AT+CSQ\r\n"`: the echo alone, no comma. -/
def CSQ_ECHO_SEG : List Char := ['A','T','+','C','S','Q','\r','\n']

/-- C10 counterexample: a successfully read response carrying `"AT+CSQ"`
at index 0 but no comma gives `idxEnd = -1`, so the read at `idxEnd - 1`
(C index -2) is out of bounds and the Option-indexed model hits `none` —
the out-of-bounds branch is reachable, refuting the claim. -/
theorem getSignal_oob_without_comma :
    readResponse CSQ_ECHO_SEG 64 1 = some ['A','T','+','C','S','Q','\r','\n'] ∧
    strIndex ['A','T','+','C','S','Q','\r','\n'] CSQ_TOK 0 = 0 ∧
    strIndex ['A','T','+','C','S','Q','\r','\n'] COMMA_TOK 0 = -1 ∧
    getSignalOn CSQ_ECHO_SEG 64 = none :=
  ⟨rfl, rfl, rfl, rfl⟩

/-- Expected token `"OK"`. -/
def RSP_OK : List Char := ['O','K']

/-- Expected token `"DOWNLOAD"`. -/
def RSP_DOWNLOAD : List Char := ['D','O','W','N','L','O','A','D']

/-- Expected token `"+HTTPREAD: "`. -/
def RSP_HTTPREAD : List Char := ['+','H','T','T','P','R','E','A','D',':',' ']

/-- The driver state the HTTP operations mutate: the receive buffer (the
full `recvBufferSize`-byte array) and the uint16 `dataSize` field. -/
structure DriverState where
  recvBuffer : List Char
  dataSize : Nat

/-- Model of `SIM800L::getDataSizeReceived` (SIM800L.cpp lines 437-439): the uint16
`dataSize` field truncated to the `uint8_t` return type. -/
def getDataSizeReceived (st : DriverState) : Nat := st.dataSize % 256

/-- Model of `SIM800L::getDataReceived` (lines 444-446). -/
def getDataReceived (st : DriverState) : List Char := st.recvBuffer

/-- A zero-filled buffer of `n` bytes, as the cleanup loops of
`doGet`/`doPost` leave the receive buffer. -/
def NULbuf (n : Nat) : List Char := List.replicate n NULc

/-- Write `payload` over the front of the (zeroed) receive buffer. -/
def storeFront (base payload : List Char) : List Char :=
  payload ++ base.drop payload.length

/-- Take the next device segment: each read pass of the driver consumes
one segment of the script (a `sendCommand`'s pre-write drain discards
whatever a previous pass left unconsumed). -/
def nextSeg (script : List (List Char)) : List Char × List (List Char) :=
  (script.headD [], script.drop 1)

/-- One `sendCommand_P` + `readResponseCheckAnswer_P` exchange. -/
def checkStep (script : List (List Char)) (cap : Nat) (expected : List Char)
    (w : Nat) : Bool × List (List Char) :=
  (readResponseCheckAnswer (nextSeg script).1 cap expected w, (nextSeg script).2)

/-- Model of `SIM800L::initiateHTTP` (SIM800L.cpp lines 359-397): HTTPINIT (701 on
failure), bearer CID (702), URL (702), then the SSL mode — `AT+HTTPSSL=1`
when the url starts with `"https://"`, `AT+HTTPSSL=0` otherwise; either
way one OK-checked exchange (702 on failure).  Returns the failing step's
code or `none`, with the remaining script. -/
def initiateHTTPM (url : List Char) (script : List (List Char)) (cap : Nat) :
    Option Nat × List (List Char) :=
  let s1 := checkStep script cap RSP_OK 1
  if ¬ s1.1 then (some 701, s1.2)
  else
    let s2 := checkStep s1.2 cap RSP_OK 1
    if ¬ s2.1 then (some 702, s2.2)
    else
      let s3 := checkStep s2.2 cap RSP_OK 1
      if ¬ s3.1 then (some 702, s3.2)
      else
        let s4 := checkStep s3.2 cap RSP_OK 1
        if ¬ s4.1 then (some 702, s4.2)
        else (none, s4.2)

/-- Model of `SIM800L::terminateHTTP` (lines 402-410): one OK-checked exchange,
706 on failure. -/
def terminateHTTPM (script : List (List Char)) (cap : Nat) :
    Option Nat × List (List Char) :=
  let s1 := checkStep script cap RSP_OK 1
  if ¬ s1.1 then (some 706, s1.2) else (none, s1.2)

/-- The HTTP-read phase shared verbatim by the 200 branches of
`SIM800L::doGet` (SIM800L.cpp lines 309-344) and `SIM800L::doPost` (lines
199-234): await the HTTPREAD acknowledgement with `crlfToWait = 2` (705 on
failure, with the already-parsed `ds` left in `dataSize`), copy the
payload with CR/LF filtering, truncate `dataSize` to the receive
capacity, expect the final OK (705), terminate (706) and return
`httpRC`. -/
def httpReadPhase (httpRC ds : Nat) (script : List (List Char)) (intCap recvCap : Nat) :
    Option (Nat × DriverState) :=
  let stepR := checkStep script intCap RSP_HTTPREAD 2
  if ¬ stepR.1 then some (705, ⟨NULbuf recvCap, ds⟩)
  else
    let pseg := nextSeg stepR.2
    match payloadCopy ds recvCap pseg.1 0 [] 0 with
    | none => none
    | some pr =>
      let rb := storeFront (NULbuf recvCap) pr.1
      let ds2 := if recvCap < ds then recvCap else ds
      let stepO := checkStep pseg.2 intCap RSP_OK 1
      if ¬ stepO.1 then some (705, ⟨rb, ds2⟩)
      else
        match terminateHTTPM stepO.2 intCap with
        | (some rc, _) => some (rc, ⟨rb, ds2⟩)
        | (none, _) => some (httpRC, ⟨rb, ds2⟩)

/-- The action-response tail shared by `doGet` and `doPost` (SIM800L.cpp
lines 269-353 / 159-243), differing only in the expected action prefix
`tok`: await the server response (408 on timeout), locate the prefix
(703), parse the status; on 200 parse `dataSize` and enter the HTTP-read
phase, otherwise terminate (706) and return the status. -/
def actionResponsePhase (tok : List Char) (script : List (List Char))
    (intCap recvCap : Nat) : Option (Nat × DriverState) :=
  let seg := nextSeg script
  match readResponse seg.1 intCap 1 with
  | none => some (408, ⟨NULbuf recvCap, 0⟩)
  | some buf =>
    let idxBase := strIndex buf tok 0
    if idxBase < 0 then some (703, ⟨NULbuf recvCap, 0⟩)
    else
      let httpRC := parseHttpRC buf idxBase.toNat
      if httpRC = 200 then
        httpReadPhase httpRC (parseDataSize buf idxBase.toNat) seg.2 intCap recvCap
      else
        match terminateHTTPM seg.2 intCap with
        | (some rc, _) => some (rc, ⟨NULbuf recvCap, 0⟩)
        | (none, _) => some (httpRC, ⟨NULbuf recvCap, 0⟩)

/-- Model of `SIM800L::doGet` (SIM800L.cpp lines 249-354) against a device
script: clear the receive buffer and `dataSize`, initiate the session,
fire the GET action (703), then run the action-response tail with the
`"+HTTPACTION: 0,"` prefix.  `none` models the payload loop blocking
forever on an exhausted transport. -/
def doGet (url : List Char) (script : List (List Char)) (intCap recvCap : Nat)
    (st : DriverState) : Option (Nat × DriverState) :=
  match initiateHTTPM url script intCap with
  | (some rc, _) => some (rc, ⟨NULbuf recvCap, 0⟩)
  | (none, s1) =>
    let stepA := checkStep s1 intCap RSP_OK 1
    if ¬ stepA.1 then some (703, ⟨NULbuf recvCap, 0⟩)
    else actionResponsePhase ACTION0_TOK stepA.2 intCap recvCap

/-- Model of `SIM800L::doPost` (SIM800L.cpp lines 111-244) against a
device script: as `doGet`, with the content-type exchange (702), the
sized `AT+HTTPDATA` write awaiting `DOWNLOAD` (707), the
`readToForget(500)` pass before the raw payload write (one consumed
segment), the POST action (703), and the `"+HTTPACTION: 1,"` prefix. -/
def doPost (url contentType payload : List Char) (script : List (List Char))
    (intCap recvCap : Nat) (st : DriverState) : Option (Nat × DriverState) :=
  match initiateHTTPM url script intCap with
  | (some rc, _) => some (rc, ⟨NULbuf recvCap, 0⟩)
  | (none, s1) =>
    let stepC := checkStep s1 intCap RSP_OK 1
    if ¬ stepC.1 then some (702, ⟨NULbuf recvCap, 0⟩)
    else
      let stepD := checkStep stepC.2 intCap RSP_DOWNLOAD 1
      if ¬ stepD.1 then some (707, ⟨NULbuf recvCap, 0⟩)
      else
        let sForget := (nextSeg stepD.2).2
        let stepA := checkStep sForget intCap RSP_OK 1
        if ¬ stepA.1 then some (703, ⟨NULbuf recvCap, 0⟩)
        else actionResponsePhase ACTION1_TOK stepA.2 intCap recvCap

theorem terminateHTTPM_code (script : List (List Char)) (cap : Nat) (rc : Nat)
    (s' : List (List Char)) (h : terminateHTTPM script cap = (some rc, s')) :
    rc = 706 := by
  simp only [terminateHTTPM] at h
  split at h
  · injection h with h1 h2
    injection h1 with h3
    omega
  · injection h with h1 h2
    exact Option.noConfusion h1

theorem httpReadPhase_cases (httpRC ds : Nat) (script : List (List Char))
    (intCap recvCap : Nat) (rc : Nat) (st' : DriverState)
    (h : httpReadPhase httpRC ds script intCap recvCap = some (rc, st')) :
    rc = 705 ∨ rc = 706 ∨ rc = httpRC := by
  simp only [httpReadPhase] at h
  split at h
  · injection h with h1
    injection h1 with h2 h3
    exact Or.inl h2.symm
  · split at h
    · exact Option.noConfusion h
    · split at h
      · injection h with h1
        injection h1 with h2 h3
        exact Or.inl h2.symm
      · split at h
        · rename_i rc1 s1 heqT
          injection h with h1
          injection h1 with h2 h3
          have h706 := terminateHTTPM_code _ _ _ _ heqT
          exact Or.inr (Or.inl (by omega))
        · injection h with h1
          injection h1 with h2 h3
          exact Or.inr (Or.inr h2.symm)

theorem actionResponsePhase_cases (tok : List Char) (script : List (List Char))
    (intCap recvCap : Nat) (rc : Nat) (st' : DriverState)
    (h : actionResponsePhase tok script intCap recvCap = some (rc, st')) :
    st' = ⟨NULbuf recvCap, 0⟩ ∨ rc = 705 ∨ rc = 706 ∨ rc = 200 := by
  simp only [actionResponsePhase] at h
  split at h
  · injection h with h1
    injection h1 with h2 h3
    exact Or.inl h3.symm
  · split at h
    · injection h with h1
      injection h1 with h2 h3
      exact Or.inl h3.symm
    · split at h
      · rename_i h200cond
        rcases httpReadPhase_cases _ _ _ _ _ _ _ h with hx | hx | hx
        · exact Or.inr (Or.inl hx)
        · exact Or.inr (Or.inr (Or.inl hx))
        · exact Or.inr (Or.inr (Or.inr (by omega)))
      · split at h
        · injection h with h1
          injection h1 with h2 h3
          exact Or.inl h3.symm
        · injection h with h1
          injection h1 with h2 h3
          exact Or.inl h3.symm

theorem doGet_cases (url : List Char) (script : List (List Char)) (intCap recvCap : Nat)
    (st : DriverState) (rc : Nat) (st' : DriverState)
    (h : doGet url script intCap recvCap st = some (rc, st')) :
    st' = ⟨NULbuf recvCap, 0⟩ ∨ rc = 705 ∨ rc = 706 ∨ rc = 200 := by
  simp only [doGet] at h
  split at h
  · injection h with h1
    injection h1 with h2 h3
    exact Or.inl h3.symm
  · split at h
    · injection h with h1
      injection h1 with h2 h3
      exact Or.inl h3.symm
    · exact actionResponsePhase_cases _ _ _ _ _ _ h

theorem doPost_cases (url contentType payload : List Char) (script : List (List Char))
    (intCap recvCap : Nat) (st : DriverState) (rc : Nat) (st' : DriverState)
    (h : doPost url contentType payload script intCap recvCap st = some (rc, st')) :
    st' = ⟨NULbuf recvCap, 0⟩ ∨ rc = 705 ∨ rc = 706 ∨ rc = 200 := by
  simp only [doPost] at h
  split at h
  · injection h with h1
    injection h1 with h2 h3
    exact Or.inl h3.symm
  · split at h
    · injection h with h1
      injection h1 with h2 h3
      exact Or.inl h3.symm
    · split at h
      · injection h with h1
        injection h1 with h2 h3
        exact Or.inl h3.symm
      · split at h
        · injection h with h1
          injection h1 with h2 h3
          exact Or.inl h3.symm
        · exact actionResponsePhase_cases _ _ _ _ _ _ h

/-- C6 (corrected): after a `doGet`/`doPost` that fails BEFORE the 200
branch parses the length field — any return other than 200, 705 and
706 — `dataSize` (and hence `getDataSizeReceived`) is 0.  The claim's
"every failure leaves 0" is false: a 705 (and 706) return happens after
the length parse and leaves the parsed value behind (see the
counterexample). -/
theorem received_length_zero_on_failure (url : List Char) (script : List (List Char))
    (intCap recvCap : Nat) (st : DriverState) :
    (∀ rc st', doGet url script intCap recvCap st = some (rc, st') →
      rc ≠ 200 → rc ≠ 705 → rc ≠ 706 →
      st'.dataSize = 0 ∧ getDataSizeReceived st' = 0) ∧
    (∀ contentType payload rc st',
      doPost url contentType payload script intCap recvCap st = some (rc, st') →
      rc ≠ 200 → rc ≠ 705 → rc ≠ 706 →
      st'.dataSize = 0 ∧ getDataSizeReceived st' = 0) := by
  constructor
  · intro rc st' h h200 h705 h706
    rcases doGet_cases url script intCap recvCap st rc st' h with hst | hrc
    · subst hst
      exact ⟨rfl, rfl⟩
    · rcases hrc with hx | hx | hx
      · exact absurd hx h705
      · exact absurd hx h706
      · exact absurd hx h200
  · intro contentType payload rc st' h h200 h705 h706
    rcases doPost_cases url contentType payload script intCap recvCap st rc st' h with
      hst | hrc
    · subst hst
      exact ⟨rfl, rfl⟩
    · rcases hrc with hx | hx | hx
      · exact absurd hx h705
      · exact absurd hx h706
      · exact absurd hx h200

/-- The device segment `" OK\r\n"`: one CRLF, the token at index 1. -/
def OK_SEG : List Char := [' ','O','K','\r','\n']

/-- A script driving `doGet` to the HTTPREAD failure: four OKs for the
initiate steps, an OK for the GET action, the action response declaring
status 200 and length 1234 — then nothing, so the HTTPREAD check times
out and `doGet` returns 705. -/
def GET705_SCRIPT : List (List Char) :=
  [OK_SEG, OK_SEG, OK_SEG, OK_SEG, OK_SEG, HTTPACTION_EXAMPLE]

/-- C6 counterexample: this `doGet` returns the driver pseudo-code 705
(HTTPREAD step failure), yet the received length afterwards is the parsed
1234, not 0 — `getDataSizeReceived` reports 210 (uint8 truncation), also
not 0. -/
theorem doGet_failure_keeps_parsed_length :
    doGet [] GET705_SCRIPT 64 8 ⟨NULbuf 8, 0⟩ = some (705, ⟨NULbuf 8, 1234⟩) ∧
    getDataSizeReceived ⟨NULbuf 8, 1234⟩ ≠ 0 :=
  ⟨rfl, by decide⟩

/-- C7 (corrected): `doGet` and `doPost` zero the receive buffer FIRST,
before any exchange; a call failing in the initiate/action/response phases
(701, 702, 707, 703, 408) therefore leaves the buffer all zeros — the
previously fetched payload is destroyed, not preserved. -/
theorem recvBuffer_zeroed_on_failure (url : List Char) (script : List (List Char))
    (intCap recvCap : Nat) (st : DriverState) :
    (∀ rc st', doGet url script intCap recvCap st = some (rc, st') →
      (rc = 701 ∨ rc = 702 ∨ rc = 703 ∨ rc = 408) →
      st'.recvBuffer = NULbuf recvCap) ∧
    (∀ contentType payload rc st',
      doPost url contentType payload script intCap recvCap st = some (rc, st') →
      (rc = 701 ∨ rc = 702 ∨ rc = 707 ∨ rc = 703 ∨ rc = 408) →
      st'.recvBuffer = NULbuf recvCap) := by
  constructor
  · intro rc st' h hrc
    rcases doGet_cases url script intCap recvCap st rc st' h with hst | hx
    · subst hst
      rfl
    · exact absurd hx (by omega)
  · intro contentType payload rc st' h hrc
    rcases doPost_cases url contentType payload script intCap recvCap st rc st' h with
      hst | hx
    · subst hst
      rfl
    · exact absurd hx (by omega)

/-- A driver state holding a previously fetched payload `"HELLO"`. -/
def HELLO_STATE : DriverState :=
  ⟨['H','E','L','L','O', NULc, NULc, NULc], 5⟩

/-- C7 counterexample: a `doGet` that fails immediately (empty script, so
the HTTPINIT check fails with 701) does NOT leave the previously fetched
`"HELLO"` payload in the receive buffer — the buffer comes back zeroed. -/
theorem doGet_failure_clears_recvBuffer :
    doGet [] [] 64 8 HELLO_STATE = some (701, ⟨NULbuf 8, 0⟩) ∧
    HELLO_STATE.recvBuffer ≠ NULbuf 8 :=
  ⟨rfl, by decide⟩
